import Mathlib

/-!
# A verification development of `pagerank.py`

This file gives a shallow embedding, in Lean 4, of the PageRank engine of
the repository (the functions `transition_model`, `sample_pagerank` and
`iterate_pagerank` of `src/pagerank.py`), and proves or refutes the frozen
claims about it.

Modelling conventions:
* a page is an opaque identifier, modelled as a natural number; a corpus
  (a Python dict from page to set of linked pages) is an association list
  with distinct keys, each value a duplicate-free list standing for the
  Python set;
* Python floats become exact rationals (`ℚ`); tolerance clauses of the
  claims ("within 1e-9") are settled by exact equalities;
* a Python `dict` of numbers is embedded as a total function `Page → ℚ`
  that is `0` off the dict's key set; statements about the dict quantify
  over the key list;
* a run that raises an uncaught exception (`ZeroDivisionError` from a
  division by zero, `IndexError` from `random.choice` on an empty
  sequence) returns `none`; a normal return is `some`;
* the random draws of `sample_pagerank` are an explicit oracle argument
  (one `Tape` per trajectory), so every theorem about it quantifies over
  every outcome of the draws of a terminating execution.
-/

abbrev Page := Nat

/-- A corpus: the Python dict `page ↦ set of linked pages` as an
association list. Distinctness of keys and duplicate-freeness of the
values are the data-model invariants `ValidCorpus` below. -/
abbrev Corpus := List (Page × List Page)

/-- `list(corpus.keys())` — key iteration order is insertion order. -/
def keys (corpus : Corpus) : List Page := corpus.map Prod.fst

/-- `corpus[page]`: lookup of the (unique) entry with the given key. In
Python a lookup of a missing key raises `KeyError`; every claim only
queries pages of the corpus, and for a missing key this embedding
returns `[]`. -/
def outlinks : Corpus → Page → List Page
  | [], _ => []
  | e :: rest, page => if e.fst = page then e.snd else outlinks rest page

/-- The data-model invariants of the spec (§3): keys are distinct (it is a
dict), every outlink set is duplicate-free (it is a set), links stay inside
the corpus, and no page links to itself. -/
def ValidCorpus (corpus : Corpus) : Prop :=
  (keys corpus).Nodup ∧
  ∀ e ∈ corpus, e.snd.Nodup ∧ (∀ q ∈ e.snd, q ∈ keys corpus) ∧ e.fst ∉ e.snd

instance : DecidablePred ValidCorpus := fun c => by
  unfold ValidCorpus; infer_instance

/-! ## `transition_model` (src/pagerank.py lines 62–102) -/

/-- `linked_page = list(corpus[page])`. -/
def linked_page (corpus : Corpus) (page : Page) : List Page :=
  outlinks corpus page

/-- The list comprehension of `transition_model`:
`[p for p in corpus.keys() if p not in linked_page]`. -/
def none_linked_pages (corpus : Corpus) (page : Page) : List Page :=
  (keys corpus).filter (fun q => decide (q ∉ linked_page corpus page))

/-- The dict returned by `transition_model(corpus, page, damping_factor)`.
Line by line: if the linked-page list is non-empty, every linked page gets
`damping_factor / len(linked_page)`; otherwise the dict starts empty and
`damping_factor` is reassigned to `0`. Then, if `none_linked_pages` is
non-empty, every non-linked page gets `(1 - damping_factor) /
len(none_linked_pages)` (the two groups are disjoint, so the `update`
overwrites nothing). The `else` branch of that second `if` only calls
`transition_model(corpus, page, 1)` and discards the result, so it never
changes the returned dict; the guard reaching that branch is
`transition_retry_branch` below. -/
def transition_model (corpus : Corpus) (page : Page) (damping_factor : ℚ) :
    Page → ℚ :=
  let lp := linked_page corpus page
  let d2 : ℚ := if lp.length > 0 then damping_factor else 0
  let nl := none_linked_pages corpus page
  fun q =>
    if q ∈ lp then damping_factor / (lp.length : ℚ)
    else if q ∈ nl then (1 - d2) / (nl.length : ℚ)
    else 0

/-- `true` exactly when `transition_model` reaches the `else` branch that
holds the recursive retry (`len(none_linked_pages) == 0`). -/
def transition_retry_branch (corpus : Corpus) (page : Page) : Bool :=
  (none_linked_pages corpus page).isEmpty

/-! ## `iterate_pagerank` (src/pagerank.py lines 164–201) -/

/-- `base_rank_score = (1 - damping_factor) / len(corpus)`. -/
def base_rank_score (corpus : Corpus) (damping_factor : ℚ) : ℚ :=
  (1 - damping_factor) / (corpus.length : ℚ)

/-- `base_rank = {page: base_rank_score for page in corpus.keys()}`. -/
def base_rank (corpus : Corpus) (damping_factor : ℚ) : Page → ℚ :=
  fun _ => base_rank_score corpus damping_factor

/-- The accumulated `link_rank` dict after the two nested loops:
`for current_page, linked_pages in corpus.items(): for page in
linked_pages: link_rank[page] += base_rank[current_page] * damping_factor
/ len(linked_pages)`. The value at `q` is the sum, over the loop
iterations whose target equals `q`, of the added increment. -/
def link_rank (corpus : Corpus) (damping_factor : ℚ) (q : Page) : ℚ :=
  (corpus.map (fun e =>
    (e.snd.map (fun page =>
      if page = q then
        base_rank corpus damping_factor e.fst * damping_factor /
          (e.snd.length : ℚ)
      else 0)).sum)).sum

/-- `total_rank = {page: link_rank_score + base_rank_score ...}`. -/
def total_rank (corpus : Corpus) (damping_factor : ℚ) (q : Page) : ℚ :=
  link_rank corpus damping_factor q + base_rank_score corpus damping_factor

/-- `total_score = sum(total_rank.values())`. -/
def total_score (corpus : Corpus) (damping_factor : ℚ) : ℚ :=
  ((keys corpus).map (total_rank corpus damping_factor)).sum

/-- `iterate_pagerank(corpus, damping_factor)`. An empty corpus raises
`ZeroDivisionError` while computing `base_rank_score`; a zero
`total_score` raises `ZeroDivisionError` in the final normalization; both
are `none`. Otherwise the returned dict maps each page to
`total_rank / total_score`. -/
def iterate_pagerank (corpus : Corpus) (damping_factor : ℚ) :
    Option (Page → ℚ) :=
  if corpus.length = 0 then none
  else if total_score corpus damping_factor = 0 then none
  else some (fun q =>
    total_rank corpus damping_factor q / total_score corpus damping_factor)

/-- The PageRank recurrence exactly as the spec words it (§4.3): new rank
of `q` is `(1 − d)/N` plus the sum, over every page `p` linking to `q`,
of `d · rank(p) / |L(p)|`. This definition follows the spec, not the
source; it is the yardstick the code's single pass is compared against. -/
def spec_recurrence_pass (corpus : Corpus) (d : ℚ) (rank : Page → ℚ)
    (q : Page) : ℚ :=
  (1 - d) / ((keys corpus).length : ℚ) +
  (corpus.map (fun e =>
    if q ∈ e.snd then d * rank e.fst / (e.snd.length : ℚ) else 0)).sum

/-- The recurrence with the spec's dangling-page rule (§4.3): on top of
`spec_recurrence_pass`, every page with an empty outlink set redistributes
its mass uniformly, giving each page an extra `d · rank(p) / N`. This
definition follows the spec, not the source. -/
def spec_pass_redistribute (corpus : Corpus) (d : ℚ) (rank : Page → ℚ)
    (q : Page) : ℚ :=
  spec_recurrence_pass corpus d rank q +
  (corpus.map (fun e =>
    if e.snd.length = 0 then d * rank e.fst / ((keys corpus).length : ℚ)
    else 0)).sum

/-! ## `sample_pagerank` (src/pagerank.py lines 105–161) -/

/-- The outcome of the random draws of one surf trajectory that
terminates: the list of follow choices made while `random.random() <
damping_factor` held, each recorded as an index into the list it chose
from (taken modulo that list's length). The trajectory visits one page
per element and then one final page on the iteration whose draw broke the
loop. -/
structure Tape where
  start : Nat
  steps : List Nat
deriving DecidableEq

/-- `pagerank[page] += 1`. -/
def bump (counts : Page → Nat) (page : Page) : Page → Nat :=
  fun q => if q = page then counts q + 1 else counts q

/-- The page the surfer moves to on one follow step: a uniformly chosen
element of `corpus[page]` when that set is non-empty, else a uniformly
chosen corpus key; the random choice is the oracle index `i`. -/
def next_page (corpus : Corpus) (page : Page) (i : Nat) : Page :=
  let lp := outlinks corpus page
  if lp.length > 0 then lp.getD (i % lp.length) page
  else (keys corpus).getD (i % (keys corpus).length) page

/-- The inner `while True` loop of `sample_pagerank`: each iteration first
increments the current page's counter, then either follows one link
(one tape element consumed) or breaks (tape exhausted). -/
def run_trajectory (corpus : Corpus) :
    (Page → Nat) → Page → List Nat → (Page → Nat)
  | counts, page, [] => bump counts page
  | counts, page, i :: rest =>
      run_trajectory corpus (bump counts page) (next_page corpus page i) rest

/-- The visit counters after the `for _ in range(n)` loop of
`sample_pagerank`, one tape per trajectory; each trajectory starts at
`random.choice(list(corpus.keys()))`, the draw being the tape's `start`
index. -/
def sample_counts (corpus : Corpus) (tapes : List Tape) : Page → Nat :=
  tapes.foldl (fun counts t =>
    run_trajectory corpus counts
      ((keys corpus).getD (t.start % (keys corpus).length) 0) t.steps)
    (fun _ => 0)

/-- The number of counter increments all trajectories make together: each
trajectory of tape `t` visits `t.steps.length + 1` pages. -/
def total_steps (tapes : List Tape) : Nat :=
  (tapes.map (fun t => t.steps.length + 1)).sum

/-- `sample_pagerank(corpus, damping_factor, n)` with `n = tapes.length`
trajectories whose draws are the tapes. On an empty corpus
`random.choice` raises `IndexError` (for `n = 0`, the normalization
raises `ZeroDivisionError` instead); a zero counter total raises
`ZeroDivisionError`; both are `none`. Otherwise each page's counter is
divided by the sum of all counters. The damping factor itself does not
appear: the outcomes of the draws it gates are recorded on the tapes. -/
def sample_pagerank (corpus : Corpus) (tapes : List Tape) :
    Option (Page → ℚ) :=
  if (keys corpus).length = 0 then none
  else
    let counts := sample_counts corpus tapes
    let tot := ((keys corpus).map (fun p => (counts p : ℚ))).sum
    if tot = 0 then none
    else some (fun p => (counts p : ℚ) / tot)

/-! ## Concrete test corpora -/

/-- Two mutually linked pages (spec §8 scenario `{A: {B}, B: {A}}`),
with `A, B` as `1, 2`. -/
def corpusAB : Corpus := [(1, [2]), (2, [1])]

/-- Spec §8 scenario `{A: {B}, B: {A, C}, C: {A}}`, with `A, B, C` as
`1, 2, 3`. -/
def corpusABC : Corpus := [(1, [2]), (2, [1, 3]), (3, [1])]

/-- A corpus with a dangling page: `{A: {B}, B: {}}`, with `A, B` as
`1, 2`. -/
def corpusDangling : Corpus := [(1, [2]), (2, [])]

/-! ## Helper lemmas -/

lemma sum_map_div {α : Type} (l : List α) (f : α → ℚ) (T : ℚ) :
    (l.map (fun x => f x / T)).sum = (l.map f).sum / T := by
  induction l with
  | nil => simp
  | cons x xs ih => simp [ih, add_div]

lemma sum_map_natCast {α : Type} (l : List α) (f : α → Nat) :
    (l.map (fun x => (f x : ℚ))).sum = ((l.map f).sum : ℚ) := by
  induction l with
  | nil => simp
  | cons x xs ih =>
    rw [List.map_cons, List.sum_cons, List.map_cons, List.sum_cons,
      Nat.cast_add, ih]

/-- A duplicate-free list contributes `v` exactly once to a sum of
`if x = q then v else 0` terms when `q` is among its elements. -/
lemma sum_map_ite_eq_mem (l : List Page) (q : Page) (v : ℚ)
    (hnd : l.Nodup) :
    (l.map (fun x => if x = q then v else 0)).sum =
      if q ∈ l then v else 0 := by
  induction l with
  | nil => simp
  | cons x xs ih =>
    rcases List.nodup_cons.mp hnd with ⟨hx, hxs⟩
    by_cases hxq : x = q
    · subst hxq
      simp [ih hxs, hx]
    · have hqx : q ≠ x := fun h => hxq h.symm
      simp only [List.map_cons, List.sum_cons, if_neg hxq, ih hxs,
        List.mem_cons, zero_add]
      by_cases hq : q ∈ xs <;> simp [hq, hqx]

lemma sum_map_ite_mem_split (ks L : List Page) (a b : ℚ) :
    (ks.map (fun q => if q ∈ L then a else b)).sum =
      ((ks.filter (fun q => decide (q ∈ L))).length : ℚ) * a +
      ((ks.filter (fun q => decide (q ∉ L))).length : ℚ) * b := by
  induction ks with
  | nil => simp
  | cons x xs ih =>
    by_cases hx : x ∈ L
    · simp only [List.map_cons, List.sum_cons, if_pos hx, ih,
        List.filter_cons, decide_eq_true_eq, hx, decide_True, if_true,
        not_true, decide_False, Bool.false_eq_true, if_false,
        List.length_cons]
      push_cast
      ring
    · simp only [List.map_cons, List.sum_cons, if_neg hx, ih,
        List.filter_cons, decide_eq_true_eq, hx, decide_False,
        Bool.false_eq_true, if_false, not_false_iff, decide_True, if_true,
        List.length_cons]
      push_cast
      ring

/-- Counting the keys that lie in `L`: when `L` is a duplicate-free subset
of the duplicate-free key list, the filter has exactly `L.length`
elements. -/
lemma length_filter_mem (ks L : List Page) (hks : ks.Nodup)
    (hL : L.Nodup) (hsub : ∀ q ∈ L, q ∈ ks) :
    (ks.filter (fun q => decide (q ∈ L))).length = L.length := by
  have h1 : (ks.filter (fun q => decide (q ∈ L))).toFinset =
      L.toFinset := by
    ext q
    simp only [List.mem_toFinset, List.mem_filter, decide_eq_true_eq]
    exact ⟨fun h => h.2, fun h => ⟨hsub q h, h⟩⟩
  have h2 : (ks.filter (fun q => decide (q ∈ L))).toFinset.card =
      (ks.filter (fun q => decide (q ∈ L))).length :=
    List.toFinset_card_of_nodup (hks.filter _)
  have h3 : L.toFinset.card = L.length := List.toFinset_card_of_nodup hL
  rw [h1, h3] at h2
  exact h2.symm

/-- `outlinks` returns either `[]` (missing key) or the value of an entry
of the corpus whose key is the page. -/
lemma outlinks_cases (corpus : Corpus) (p : Page) :
    outlinks corpus p = [] ∨
      ∃ e ∈ corpus, e.fst = p ∧ outlinks corpus p = e.snd := by
  induction corpus with
  | nil => left; rfl
  | cons e rest ih =>
    by_cases h : e.fst = p
    · right
      exact ⟨e, List.mem_cons_self e rest, h, by simp [outlinks, h]⟩
    · rcases ih with h0 | ⟨e', he', hfst, hout⟩
      · left; simpa [outlinks, h] using h0
      · right
        exact ⟨e', List.mem_cons_of_mem e he', hfst,
          by simpa [outlinks, h] using hout⟩

lemma outlinks_nodup (corpus : Corpus) (hv : ValidCorpus corpus)
    (p : Page) : (outlinks corpus p).Nodup := by
  rcases outlinks_cases corpus p with h | ⟨e, he, _, hout⟩
  · simp [h]
  · rw [hout]; exact (hv.2 e he).1

lemma outlinks_subset_keys (corpus : Corpus) (hv : ValidCorpus corpus)
    (p : Page) : ∀ q ∈ outlinks corpus p, q ∈ keys corpus := by
  rcases outlinks_cases corpus p with h | ⟨e, he, _, hout⟩
  · simp [h]
  · rw [hout]; exact (hv.2 e he).2.1

lemma self_not_mem_outlinks (corpus : Corpus) (hv : ValidCorpus corpus)
    (p : Page) : p ∉ outlinks corpus p := by
  rcases outlinks_cases corpus p with h | ⟨e, he, hfst, hout⟩
  · simp [h]
  · rw [hout, ← hfst]; exact (hv.2 e he).2.2

example : ValidCorpus corpusABC := by decide
example : transition_model corpusABC 2 (17/20) 1 = 17/40 := by
  norm_num [transition_model, linked_page, outlinks, none_linked_pages,
    keys, corpusABC, List.filter]
example : transition_model corpusABC 2 (17/20) 2 = 3/20 := by
  norm_num [transition_model, linked_page, outlinks, none_linked_pages,
    keys, corpusABC, List.filter]
example : transition_model corpusAB 1 1 1 = 0 := by
  norm_num [transition_model, linked_page, outlinks, none_linked_pages,
    keys, corpusAB, List.filter]
example : total_rank corpusDangling (17/20) 1 = 3/40 := by
  norm_num [total_rank, link_rank, base_rank, base_rank_score,
    corpusDangling]
example :
    (iterate_pagerank corpusDangling (17/20)).map (fun r => (r 1, r 2)) =
      some (20/57, 37/57) := by
  norm_num [iterate_pagerank, total_score, total_rank, link_rank,
    base_rank, base_rank_score, keys, corpusDangling]

/-! ## Claim C7 -/

/-- C7: for every corpus satisfying the data-model invariants (no
self-links, outlinks inside the key set) and every page of the corpus,
the list of non-linked pages computed in `transition_model` is non-empty,
so the `else` branch holding the recursive retry (damping forced to 1) is
unreachable and `transition_model` never recurses. -/
theorem transition_retry_unreachable (corpus : Corpus) (page : Page)
    (hv : ValidCorpus corpus) (hp : page ∈ keys corpus) :
    none_linked_pages corpus page ≠ [] ∧
      transition_retry_branch corpus page = false := by
  have hmem : page ∈ none_linked_pages corpus page := by
    refine List.mem_filter.mpr ⟨hp, ?_⟩
    simpa [linked_page] using self_not_mem_outlinks corpus hv page
  have hne : none_linked_pages corpus page ≠ [] :=
    List.ne_nil_of_mem hmem
  refine ⟨hne, ?_⟩
  unfold transition_retry_branch
  exact Bool.eq_false_iff.mpr (fun h => hne (List.isEmpty_iff.mp h))

/-- Witness for the theorem of C7, at `corpusAB` and its page `1`. -/
theorem transition_retry_unreachable_witness :
    ValidCorpus corpusAB ∧ (1 : Page) ∈ keys corpusAB ∧
      (none_linked_pages corpusAB 1 ≠ [] ∧
        transition_retry_branch corpusAB 1 = false) :=
  ⟨by decide, by decide,
    transition_retry_unreachable corpusAB 1 (by decide) (by decide)⟩

/-! ## Claim C9 -/

/-- C9: at damping factor 1 the base score `(1 − d)/N` of
`iterate_pagerank` is `0`, every accumulated link contribution is `0`,
hence the normalizing `total_score` is `0` and the final division raises
`ZeroDivisionError` (modelled as `none`) — although `d = 1` lies inside
the spec's allowed range `(0, 1]`. -/
theorem iterate_pagerank_fails_at_damping_one (corpus : Corpus)
    (_hne : corpus ≠ []) :
    base_rank_score corpus 1 = 0 ∧ total_score corpus 1 = 0 ∧
      iterate_pagerank corpus 1 = none := by
  have hb : base_rank_score corpus 1 = 0 := by
    simp [base_rank_score]
  have hlink : ∀ q, link_rank corpus 1 q = 0 := by
    intro q
    unfold link_rank
    apply List.sum_eq_zero
    intro x hx
    rcases List.mem_map.mp hx with ⟨e, he, rfl⟩
    apply List.sum_eq_zero
    intro y hy
    rcases List.mem_map.mp hy with ⟨p, hp, rfl⟩
    simp [base_rank, hb]
  have hts : total_score corpus 1 = 0 := by
    unfold total_score
    apply List.sum_eq_zero
    intro x hx
    rcases List.mem_map.mp hx with ⟨p, hp, rfl⟩
    simp [total_rank, hlink, hb]
  refine ⟨hb, hts, ?_⟩
  unfold iterate_pagerank
  by_cases h : corpus.length = 0
  · rw [if_pos h]
  · rw [if_neg h, if_pos hts]

/-- Witness for the theorem of C9, at `corpusAB`. -/
theorem iterate_pagerank_fails_at_damping_one_witness :
    corpusAB ≠ [] ∧ (base_rank_score corpusAB 1 = 0 ∧
      total_score corpusAB 1 = 0 ∧ iterate_pagerank corpusAB 1 = none) :=
  ⟨by decide, iterate_pagerank_fails_at_damping_one corpusAB (by decide)⟩

/-! ## Claim C5 -/

/-- The value of `transition_model` on a page of the corpus: `d/k` on a
linked page, and the non-linked share otherwise (there is no third case on
the key set). -/
lemma transition_model_value (corpus : Corpus) (page : Page) (d : ℚ) :
    ∀ q ∈ keys corpus, transition_model corpus page d q =
      if q ∈ linked_page corpus page then
        d / ((linked_page corpus page).length : ℚ)
      else
        (1 - if (linked_page corpus page).length > 0 then d else 0) /
          ((none_linked_pages corpus page).length : ℚ) := by
  intro q hq
  by_cases hqlp : q ∈ linked_page corpus page
  · simp [transition_model, hqlp]
  · have hqnl : q ∈ none_linked_pages corpus page :=
      List.mem_filter.mpr ⟨hq, by simpa using hqlp⟩
    simp [transition_model, hqlp, hqnl]

/-- C5 (amended): for every corpus satisfying the data-model invariants,
every page of the corpus and every damping factor `d ∈ (0, 1]`, the
distribution returned by `transition_model` sums to 1 exactly over the
corpus, and whenever `d < 1` it assigns strictly positive probability to
every page. (At `d = 1` the non-linked pages receive probability `0`; see
the counterexample theorem.) -/
theorem transition_model_sum_one_and_pos (corpus : Corpus) (page : Page)
    (d : ℚ) (hv : ValidCorpus corpus) (hp : page ∈ keys corpus)
    (hd0 : 0 < d) (_hd1 : d ≤ 1) :
    ((keys corpus).map (transition_model corpus page d)).sum = 1 ∧
    (d < 1 → ∀ q ∈ keys corpus, 0 < transition_model corpus page d q) := by
  have hnodup : (keys corpus).Nodup := hv.1
  have hlpsub : ∀ q ∈ linked_page corpus page, q ∈ keys corpus :=
    outlinks_subset_keys corpus hv page
  have hlpnd : (linked_page corpus page).Nodup :=
    outlinks_nodup corpus hv page
  have hpagenl : page ∈ none_linked_pages corpus page :=
    List.mem_filter.mpr
      ⟨hp, by simpa [linked_page] using self_not_mem_outlinks corpus hv page⟩
  have hm : 0 < (none_linked_pages corpus page).length :=
    List.length_pos.mpr (List.ne_nil_of_mem hpagenl)
  have hmQ : ((none_linked_pages corpus page).length : ℚ) ≠ 0 := by
    exact_mod_cast hm.ne'
  have hval := transition_model_value corpus page d
  have hnlfilter :
      List.filter (fun q => decide (q ∉ linked_page corpus page))
        (keys corpus) = none_linked_pages corpus page := rfl
  constructor
  · rw [List.map_congr_left hval, sum_map_ite_mem_split,
      length_filter_mem (keys corpus) (linked_page corpus page) hnodup
        hlpnd hlpsub, hnlfilter]
    by_cases hk : 0 < (linked_page corpus page).length
    · have hkQ : ((linked_page corpus page).length : ℚ) ≠ 0 := by
        exact_mod_cast hk.ne'
      have h1 : ((linked_page corpus page).length : ℚ) *
          (d / ((linked_page corpus page).length : ℚ)) = d := by
        field_simp
      have h2 : ((none_linked_pages corpus page).length : ℚ) *
          ((1 - d) / ((none_linked_pages corpus page).length : ℚ)) =
            1 - d := by
        field_simp
      rw [if_pos hk, h1, h2]
      ring
    · have hk0 : ((linked_page corpus page).length : ℚ) = 0 := by
        simp [Nat.eq_zero_of_not_pos hk]
      have h2 : ((none_linked_pages corpus page).length : ℚ) *
          ((1 - (0:ℚ)) / ((none_linked_pages corpus page).length : ℚ)) =
            1 := by
        field_simp
      rw [if_neg hk, hk0, div_zero, mul_zero, zero_add, h2]
  · intro hd1' q hq
    rw [hval q hq]
    by_cases hqlp : q ∈ linked_page corpus page
    · rw [if_pos hqlp]
      have hk : 0 < (linked_page corpus page).length :=
        List.length_pos.mpr (List.ne_nil_of_mem hqlp)
      exact div_pos hd0 (by exact_mod_cast hk)
    · rw [if_neg hqlp]
      refine div_pos ?_ (by exact_mod_cast hm)
      by_cases hk : 0 < (linked_page corpus page).length
      · rw [if_pos hk]; linarith
      · rw [if_neg hk]; norm_num

/-- Witness for the theorem of C5, at `corpusAB`, page `1`, `d = 1/2`. -/
theorem transition_model_sum_one_and_pos_witness :
    ValidCorpus corpusAB ∧ (1 : Page) ∈ keys corpusAB ∧
      (0 : ℚ) < 1/2 ∧ (1/2 : ℚ) ≤ 1 ∧
      (((keys corpusAB).map (transition_model corpusAB 1 (1/2))).sum = 1 ∧
        ((1/2 : ℚ) < 1 →
          ∀ q ∈ keys corpusAB, 0 < transition_model corpusAB 1 (1/2) q)) :=
  ⟨by decide, by decide, by norm_num, by norm_num,
    transition_model_sum_one_and_pos corpusAB 1 (1/2) (by decide)
      (by decide) (by norm_num) (by norm_num)⟩

/-- Counterexample to C5 as stated: at `d = 1` — inside the claimed range
`(0, 1]` — on the valid corpus `corpusAB`, the distribution for page `1`
assigns probability `0` to page `1` itself, so it is not strictly
positive on every page of the corpus. -/
theorem transition_model_not_pos_at_damping_one :
    ValidCorpus corpusAB ∧ (1 : Page) ∈ keys corpusAB ∧
      transition_model corpusAB 1 1 1 = 0 ∧
      ¬ (0 < transition_model corpusAB 1 1 1) := by
  refine ⟨by decide, by decide, ?_, ?_⟩ <;>
    norm_num [transition_model, linked_page, outlinks, none_linked_pages,
      keys, corpusAB, List.filter]

/-! ## Claim C3 -/

/-- C3 (amended): in `iterate_pagerank` every page's provisional rank is
initialized to `(1 − d)/N`, not to `1/N`, and the pre-normalization rank
computed for each page `q` equals one application of the recurrence
`(1 − d)/N + Σ over p linking to q of d · rank(p) / |L(p)|` to those
provisional ranks. -/
theorem total_rank_eq_recurrence_on_base (corpus : Corpus)
    (d : ℚ) (q : Page) (hv : ValidCorpus corpus) :
    base_rank corpus d q = (1 - d) / (corpus.length : ℚ) ∧
    total_rank corpus d q =
      spec_recurrence_pass corpus d (base_rank corpus d) q := by
  refine ⟨rfl, ?_⟩
  unfold total_rank spec_recurrence_pass link_rank
  rw [add_comm]
  congr 1
  · simp [base_rank_score, keys]
  · refine congrArg List.sum (List.map_congr_left ?_)
    intro e he
    rw [sum_map_ite_eq_mem e.snd q _ ((hv.2 e he).1)]
    by_cases hq : q ∈ e.snd
    · rw [if_pos hq, if_pos hq]
      ring
    · rw [if_neg hq, if_neg hq]

/-- Witness for the theorem of C3, at `corpusAB`, `d = 17/20`, page 1. -/
theorem total_rank_eq_recurrence_on_base_witness :
    ValidCorpus corpusAB ∧
      (base_rank corpusAB (17/20) 1 = (1 - 17/20) / (corpusAB.length : ℚ) ∧
        total_rank corpusAB (17/20) 1 =
          spec_recurrence_pass corpusAB (17/20)
            (base_rank corpusAB (17/20)) 1) :=
  ⟨by decide, total_rank_eq_recurrence_on_base corpusAB (17/20) 1 (by decide)⟩

/-- Counterexample to C3 as stated: on the valid corpus `corpusAB` at
`d = 17/20`, the provisional rank is `3/40` while `1/N = 1/2`, and the
rank a pass computes (`111/800` for page 1) differs from what the
recurrence yields on provisional ranks of `1/N` (namely `1/2`), so the
initialization the claim states is not the one the code uses. -/
theorem base_rank_not_inverse_N :
    ValidCorpus corpusAB ∧
    base_rank corpusAB (17/20) 1 = 3/40 ∧
    1 / ((keys corpusAB).length : ℚ) = 1/2 ∧
    (3/40 : ℚ) ≠ 1/2 ∧
    total_rank corpusAB (17/20) 1 = 111/800 ∧
    spec_recurrence_pass corpusAB (17/20)
      (fun _ => 1 / ((keys corpusAB).length : ℚ)) 1 = 1/2 ∧
    (111/800 : ℚ) ≠ 1/2 := by
  refine ⟨by decide, ?_, ?_, by norm_num, ?_, ?_, by norm_num⟩ <;>
    norm_num [base_rank, base_rank_score, total_rank, link_rank,
      spec_recurrence_pass, keys, corpusAB]

/-! ## Claim C2 -/

/-- C2 (amended): for every corpus satisfying the invariants and every
damping factor `d ∈ (0, 1)`, `iterate_pagerank` returns a rank vector
summing exactly to 1 over the corpus; but that vector is produced by a
single normalized pass (each rank is `total_rank / total_score`), with no
iteration until convergence — and it is in general not a fixed point of
the recurrence (see the counterexample theorem), while at `d = 1` the
function fails instead of returning. -/
theorem iterate_pagerank_sums_to_one (corpus : Corpus) (d : ℚ)
    (_hv : ValidCorpus corpus) (hne : corpus ≠ [])
    (hd0 : 0 < d) (hd1 : d < 1) :
    ∃ r, iterate_pagerank corpus d = some r ∧
      ((keys corpus).map r).sum = 1 ∧
      ∀ q, r q = total_rank corpus d q / total_score corpus d := by
  have hlen : corpus.length ≠ 0 := by
    simpa using (List.length_pos.mpr hne).ne'
  have hNQ : (0:ℚ) < (corpus.length : ℚ) := by
    exact_mod_cast Nat.pos_of_ne_zero hlen
  have hb : 0 < base_rank_score corpus d := div_pos (by linarith) hNQ
  have hlr : ∀ q, 0 ≤ link_rank corpus d q := by
    intro q
    unfold link_rank
    apply List.sum_nonneg
    intro x hx
    rcases List.mem_map.mp hx with ⟨e, he, rfl⟩
    apply List.sum_nonneg
    intro y hy
    rcases List.mem_map.mp hy with ⟨p, hp, rfl⟩
    by_cases h : p = q
    · rw [if_pos h]
      apply div_nonneg (mul_nonneg hb.le hd0.le) (Nat.cast_nonneg _)
    · rw [if_neg h]
  have htr : ∀ q, 0 < total_rank corpus d q := fun q =>
    add_pos_of_nonneg_of_pos (hlr q) hb
  have hkeysne : keys corpus ≠ [] := by
    simp only [keys, ne_eq, List.map_eq_nil_iff]
    exact hne
  have hts : 0 < total_score corpus d := by
    unfold total_score
    apply List.sum_pos
    · intro x hx
      rcases List.mem_map.mp hx with ⟨p, hp, rfl⟩
      exact htr p
    · simp only [ne_eq, List.map_eq_nil_iff]
      exact hkeysne
  refine ⟨fun q => total_rank corpus d q / total_score corpus d, ?_, ?_,
    fun q => rfl⟩
  · unfold iterate_pagerank
    rw [if_neg hlen, if_neg hts.ne']
  · rw [sum_map_div]
    show total_score corpus d / total_score corpus d = 1
    exact div_self hts.ne'

/-- Witness for the theorem of C2, at `corpusABC`, `d = 1/2`. -/
theorem iterate_pagerank_sums_to_one_witness :
    ValidCorpus corpusABC ∧ corpusABC ≠ [] ∧ (0:ℚ) < 1/2 ∧
      (1/2 : ℚ) < 1 ∧
      (∃ r, iterate_pagerank corpusABC (1/2) = some r ∧
        ((keys corpusABC).map r).sum = 1 ∧
        ∀ q, r q =
          total_rank corpusABC (1/2) q / total_score corpusABC (1/2)) :=
  ⟨by decide, by decide, by norm_num, by norm_num,
    iterate_pagerank_sums_to_one corpusABC (1/2) (by decide) (by decide)
      (by norm_num) (by norm_num)⟩

/-- Counterexample to C2 as stated: on the valid corpus `corpusABC` at
`d = 17/20`, re-applying the recurrence once to the vector returned by
`iterate_pagerank` changes page 2's rank by `289/4440 ≈ 0.065`, far above
the claimed convergence threshold `0.001` — the code performs one pass
and never iterates, so its output is not a fixed point. -/
theorem iterate_pagerank_not_fixed_point :
    ValidCorpus corpusABC ∧
    (iterate_pagerank corpusABC (17/20)).map
        (fun r => spec_recurrence_pass corpusABC (17/20) r 2 - r 2) =
      some (289/4440) ∧
    ¬ ((289/4440 : ℚ) ≤ 1/1000) := by
  refine ⟨by decide, ?_, by norm_num⟩
  norm_num [iterate_pagerank, total_score, total_rank, link_rank,
    base_rank, base_rank_score, spec_recurrence_pass, keys, corpusABC]

/-! ## Claim C1 -/

/-- C1 (code evaluated at the failing input): on the valid corpus
`corpusABC` at `d = 17/20`, querying page 2 (outlinks `{1, 3}`, `k = 2`,
`N = 3`), `transition_model` gives a linked page only `d/k = 17/40` — not
the claimed `d/k + (1−d)/N = 19/40` — and gives the non-linked page 2 the
whole teleport mass `(1−d)/1 = 3/20` instead of the claimed
`(1−d)/N = 1/20`: the `(1−d)` branch is spread over the non-linked pages
only, contradicting both the claim and the function's own docstring. -/
theorem transition_model_misallocates_teleport :
    ValidCorpus corpusABC ∧
    transition_model corpusABC 2 (17/20) 1 = 17/40 ∧
    transition_model corpusABC 2 (17/20) 2 = 3/20 ∧
    (17/40 : ℚ) ≠ 17/20 / 2 + (1 - 17/20) / 3 ∧
    (3/20 : ℚ) ≠ (1 - 17/20) / 3 := by
  refine ⟨by decide, ?_, ?_, by norm_num, by norm_num⟩ <;>
    norm_num [transition_model, linked_page, outlinks, none_linked_pages,
      keys, corpusABC, List.filter]

/-! ## Claim C4 -/

/-- C4 (code evaluated at the failing input): on the valid corpus
`corpusDangling` (`{1: {2}, 2: {}}`, page 2 dangling) at `d = 17/20`, the
nested loops of `iterate_pagerank` give page 1 a link rank of `0` — the
dangling page 2's mass is dropped, not redistributed — so the
pre-normalization rank of page 1 differs from the spec's redistribution
pass; the returned vector `(20/57, 37/57)` still sums to 1, but only
because of the final division by `total_score`. -/
theorem iterate_pagerank_drops_dangling_mass :
    ValidCorpus corpusDangling ∧
    link_rank corpusDangling (17/20) 1 = 0 ∧
    (iterate_pagerank corpusDangling (17/20)).map (fun r => (r 1, r 2)) =
      some (20/57, 37/57) ∧
    (20/57 : ℚ) + 37/57 = 1 ∧
    total_rank corpusDangling (17/20) 1 ≠
      spec_pass_redistribute corpusDangling (17/20)
        (base_rank corpusDangling (17/20)) 1 := by
  refine ⟨by decide, ?_, ?_, by norm_num, ?_⟩ <;>
    norm_num [iterate_pagerank, total_score, total_rank, link_rank,
      base_rank, base_rank_score, spec_pass_redistribute,
      spec_recurrence_pass, keys, corpusDangling]

/-! ## Sampling lemmas -/

lemma sum_map_bump (ks : List Page) (counts : Page → Nat) (p : Page)
    (hnd : ks.Nodup) (hp : p ∈ ks) :
    (ks.map (bump counts p)).sum = (ks.map counts).sum + 1 := by
  induction ks with
  | nil => cases hp
  | cons x xs ih =>
    rcases List.nodup_cons.mp hnd with ⟨hx, hxs⟩
    rcases List.mem_cons.mp hp with rfl | hpxs
    · have hmap : xs.map (bump counts p) = xs.map counts :=
        List.map_congr_left (fun a ha => by
          unfold bump
          rw [if_neg (fun h => hx (by rw [← h]; exact ha))])
      have hhead : bump counts p p = counts p + 1 := by
        unfold bump
        rw [if_pos rfl]
    -- the head element is the bumped page, the tail is untouched
      simp only [List.map_cons, List.sum_cons, hmap, hhead]
      omega
    · have hbx : bump counts p x = counts x := by
        unfold bump
        rw [if_neg (fun h => hx (by rw [h]; exact hpxs))]
      simp only [List.map_cons, List.sum_cons, hbx, ih hxs hpxs]
      omega

lemma next_page_mem_keys (corpus : Corpus) (hv : ValidCorpus corpus)
    (hne : keys corpus ≠ []) (page : Page) (i : Nat) :
    next_page corpus page i ∈ keys corpus := by
  unfold next_page
  by_cases h : 0 < (outlinks corpus page).length
  · rw [if_pos h]
    have hlt : i % (outlinks corpus page).length <
        (outlinks corpus page).length := Nat.mod_lt _ h
    rw [List.getD_eq_getElem _ _ hlt]
    exact outlinks_subset_keys corpus hv page _ (List.getElem_mem hlt)
  · rw [if_neg h]
    have hk : 0 < (keys corpus).length := List.length_pos.mpr hne
    have hlt : i % (keys corpus).length < (keys corpus).length :=
      Nat.mod_lt _ hk
    rw [List.getD_eq_getElem _ _ hlt]
    exact List.getElem_mem hlt

lemma start_page_mem_keys (corpus : Corpus) (hne : keys corpus ≠ [])
    (s : Nat) :
    (keys corpus).getD (s % (keys corpus).length) 0 ∈ keys corpus := by
  have hk : 0 < (keys corpus).length := List.length_pos.mpr hne
  have hlt : s % (keys corpus).length < (keys corpus).length :=
    Nat.mod_lt _ hk
  rw [List.getD_eq_getElem _ _ hlt]
  exact List.getElem_mem hlt

/-- One trajectory adds exactly `steps.length + 1` visits, all of them on
pages of the corpus. -/
lemma sum_run_trajectory (corpus : Corpus) (hv : ValidCorpus corpus)
    (hne : keys corpus ≠ []) (steps : List Nat) :
    ∀ (counts : Page → Nat) (page : Page), page ∈ keys corpus →
      ((keys corpus).map (run_trajectory corpus counts page steps)).sum =
        ((keys corpus).map counts).sum + steps.length + 1 := by
  induction steps with
  | nil =>
    intro counts page hp
    unfold run_trajectory
    rw [sum_map_bump _ _ _ hv.1 hp]
    simp
  | cons i rest ih =>
    intro counts page hp
    unfold run_trajectory
    rw [ih (bump counts page) (next_page corpus page i)
      (next_page_mem_keys corpus hv hne page i),
      sum_map_bump _ _ _ hv.1 hp]
    simp only [List.length_cons]
    omega

lemma sum_sample_counts_aux (corpus : Corpus) (hv : ValidCorpus corpus)
    (hne : keys corpus ≠ []) (tapes : List Tape) :
    ∀ counts : Page → Nat,
      ((keys corpus).map
        (tapes.foldl (fun cs t =>
          run_trajectory corpus cs
            ((keys corpus).getD (t.start % (keys corpus).length) 0)
            t.steps) counts)).sum =
      ((keys corpus).map counts).sum + total_steps tapes := by
  induction tapes with
  | nil => intro counts; simp [total_steps]
  | cons t ts ih =>
    intro counts
    rw [List.foldl_cons, ih,
      sum_run_trajectory corpus hv hne t.steps counts _
        (start_page_mem_keys corpus hne t.start)]
    simp only [total_steps, List.map_cons, List.sum_cons]
    omega

/-- The counters of `sample_pagerank` total exactly the number of steps
taken across all trajectories. -/
lemma sum_sample_counts (corpus : Corpus) (hv : ValidCorpus corpus)
    (hne : keys corpus ≠ []) (tapes : List Tape) :
    ((keys corpus).map (sample_counts corpus tapes)).sum =
      total_steps tapes := by
  unfold sample_counts
  rw [sum_sample_counts_aux corpus hv hne tapes]
  simp

lemma length_le_total_steps (tapes : List Tape) :
    tapes.length ≤ total_steps tapes := by
  induction tapes with
  | nil => simp [total_steps]
  | cons t ts ih =>
    simp only [total_steps, List.map_cons, List.sum_cons,
      List.length_cons] at *
    omega

/-- With at least one trajectory on a non-empty valid corpus, the total is
non-zero, so `sample_pagerank` returns the counters divided by the total
step count. -/
lemma sample_pagerank_eq (corpus : Corpus) (hv : ValidCorpus corpus)
    (hne : corpus ≠ []) (tapes : List Tape) (hn : tapes ≠ []) :
    sample_pagerank corpus tapes =
      some (fun p => (sample_counts corpus tapes p : ℚ) /
        (total_steps tapes : ℚ)) := by
  have hkeysne : keys corpus ≠ [] := by
    simp only [keys, ne_eq, List.map_eq_nil_iff]
    exact hne
  have hklen : (keys corpus).length ≠ 0 := by
    simpa using (List.length_pos.mpr hkeysne).ne'
  have hcounts := sum_sample_counts corpus hv hkeysne tapes
  have htotpos : 0 < total_steps tapes := by
    have h1 : tapes.length ≤ total_steps tapes := length_le_total_steps tapes
    have h2 : 0 < tapes.length := List.length_pos.mpr hn
    omega
  have htotQ :
      ((keys corpus).map
        (fun p => (sample_counts corpus tapes p : ℚ))).sum =
      (total_steps tapes : ℚ) := by
    rw [sum_map_natCast, hcounts]
  have hne0 : ((total_steps tapes : ℚ)) ≠ 0 := by
    exact_mod_cast htotpos.ne'
  have hform : sample_pagerank corpus tapes =
      if ((keys corpus).map
          (fun p => (sample_counts corpus tapes p : ℚ))).sum = 0 then none
      else some (fun p => (sample_counts corpus tapes p : ℚ) /
        ((keys corpus).map
          (fun p => (sample_counts corpus tapes p : ℚ))).sum) := by
    unfold sample_pagerank
    rw [if_neg hklen]
  rw [hform, htotQ, if_neg hne0]

/-! ## Claim C6 -/

/-- C6: for every non-empty corpus satisfying the invariants, at least one
trajectory, and every outcome of the random draws, `sample_pagerank`
normalizes by dividing each page's visit counter by the sum of all
counters — which equals the total number of steps taken across all
trajectories (a quantity distinct from the trajectory count `n`) — and
the returned rank vector sums exactly to 1. -/
theorem sample_pagerank_normalizes (corpus : Corpus) (tapes : List Tape)
    (hv : ValidCorpus corpus) (hne : corpus ≠ []) (hn : tapes ≠ []) :
    ∃ r, sample_pagerank corpus tapes = some r ∧
      (∀ p, r p = (sample_counts corpus tapes p : ℚ) /
        (total_steps tapes : ℚ)) ∧
      ((keys corpus).map r).sum = 1 := by
  have hkeysne : keys corpus ≠ [] := by
    simp only [keys, ne_eq, List.map_eq_nil_iff]
    exact hne
  have htotpos : 0 < total_steps tapes := by
    have h1 := length_le_total_steps tapes
    have h2 : 0 < tapes.length := List.length_pos.mpr hn
    omega
  have hne0 : ((total_steps tapes : ℚ)) ≠ 0 := by
    exact_mod_cast htotpos.ne'
  refine ⟨fun p => (sample_counts corpus tapes p : ℚ) /
    (total_steps tapes : ℚ), sample_pagerank_eq corpus hv hne tapes hn,
    fun p => rfl, ?_⟩
  rw [sum_map_div, sum_map_natCast,
    sum_sample_counts corpus hv hkeysne tapes]
  exact div_self hne0

/-- Witness for the theorem of C6, at `corpusAB` with two trajectories:
tape `⟨0, [0]⟩` (start at page 1, follow one link, then stop) and tape
`⟨1, []⟩` (start at page 2, stop at once). -/
theorem sample_pagerank_normalizes_witness :
    ValidCorpus corpusAB ∧ corpusAB ≠ [] ∧
      ([⟨0, [0]⟩, ⟨1, []⟩] : List Tape) ≠ [] ∧
      (∃ r, sample_pagerank corpusAB [⟨0, [0]⟩, ⟨1, []⟩] = some r ∧
        (∀ p, r p =
          (sample_counts corpusAB [⟨0, [0]⟩, ⟨1, []⟩] p : ℚ) /
            (total_steps [⟨0, [0]⟩, ⟨1, []⟩] : ℚ)) ∧
        ((keys corpusAB).map r).sum = 1) :=
  ⟨by decide, by decide, by decide,
    sample_pagerank_normalizes corpusAB [⟨0, [0]⟩, ⟨1, []⟩] (by decide)
      (by decide) (by decide)⟩

/-! ## Claim C10 -/

/-- C10: for every non-empty valid corpus, at least one trajectory, and
every outcome of the draws, each trajectory increments at least one visit
counter, so the counters total the number of steps taken, which is at
least the trajectory count, and the final normalization of
`sample_pagerank` never divides by zero. -/
theorem sample_pagerank_never_divides_by_zero (corpus : Corpus)
    (tapes : List Tape) (hv : ValidCorpus corpus) (hne : corpus ≠ [])
    (hn : tapes ≠ []) :
    tapes.length ≤ total_steps tapes ∧
    ((keys corpus).map (sample_counts corpus tapes)).sum =
      total_steps tapes ∧
    (sample_pagerank corpus tapes).isSome = true := by
  have hkeysne : keys corpus ≠ [] := by
    simp only [keys, ne_eq, List.map_eq_nil_iff]
    exact hne
  refine ⟨length_le_total_steps tapes,
    sum_sample_counts corpus hv hkeysne tapes, ?_⟩
  rw [sample_pagerank_eq corpus hv hne tapes hn]
  rfl

/-- Witness for the theorem of C10, at `corpusAB` with one trajectory. -/
theorem sample_pagerank_never_divides_by_zero_witness :
    ValidCorpus corpusAB ∧ corpusAB ≠ [] ∧
      ([⟨0, []⟩] : List Tape) ≠ [] ∧
      (([⟨0, []⟩] : List Tape).length ≤ total_steps [⟨0, []⟩] ∧
        ((keys corpusAB).map (sample_counts corpusAB [⟨0, []⟩])).sum =
          total_steps [⟨0, []⟩] ∧
        (sample_pagerank corpusAB [⟨0, []⟩]).isSome = true) :=
  ⟨by decide, by decide, by decide,
    sample_pagerank_never_divides_by_zero corpusAB [⟨0, []⟩] (by decide)
      (by decide) (by decide)⟩

/-! ## Claim C8 -/

/-- Counterexample to C8 as stated: `d = 2` lies outside `(0, 1]`, yet
`iterate_pagerank` on the valid corpus `corpusAB` signals no failure at
all: it returns a normally-formed vector `(1/2, 1/2)`, silently computed
through a negative base rank and a negative total. -/
theorem iterate_pagerank_accepts_invalid_damping :
    ValidCorpus corpusAB ∧
    (iterate_pagerank corpusAB 2).isSome = true ∧
    (iterate_pagerank corpusAB 2).map (fun r => (r 1, r 2)) =
      some (1/2, 1/2) := by
  refine ⟨by decide, ?_, ?_⟩ <;>
    norm_num [iterate_pagerank, total_score, total_rank, link_rank,
      base_rank, base_rank_score, keys, corpusAB]

/-- C8 (amended): the estimators perform no argument validation. An empty
corpus makes both raise an incidental exception (`ZeroDivisionError` in
`iterate_pagerank`, `IndexError` from `random.choice` in
`sample_pagerank`), not an explicit "invalid argument" failure; a run
with no trajectories raises `ZeroDivisionError` in the normalization; and
a damping factor outside `(0, 1]` is accepted silently, producing a
normally returned vector. -/
theorem estimators_lack_validation :
    iterate_pagerank [] (17/20) = none ∧
    sample_pagerank [] [⟨0, []⟩] = none ∧
    sample_pagerank corpusAB [] = none ∧
    (iterate_pagerank corpusAB 2).map (fun r => (r 1, r 2)) =
      some (1/2, 1/2) := by
  refine ⟨rfl, rfl, ?_, ?_⟩ <;>
    norm_num [iterate_pagerank, total_score, total_rank, link_rank,
      base_rank, base_rank_score, sample_pagerank, sample_counts,
      total_steps, keys, corpusAB]
